import Mathlib

/-!
Verification of the tool-installer asset-resolution-and-installation pipeline
(`src/runtool.py`, with the `src/tool_installer.py` and `src/foo.py` variants
where the claims cite them), as a shallow embedding in Lean 4.

Strings model Python `str`; the filesystem is modelled as an association list
from absolute paths to entry kinds (regular file with an executable bit,
directory, or symbolic link with its stored target), together with counters of
network accesses (asset downloads via `__download__` and page fetches via
`__get_html__`).  Symbolic-link resolution is modelled one level deep, which
covers every state the claims mention.  Stateful operations are explicit
state-passing functions `FS -> FS x result`; code paths that raise
(`SystemExit`, `FileExistsError`) return an error result carrying the state at
the raise point.
-/

/-! ## String helpers

Core `String` functions such as `splitOn`, `toLower` are defined by
position-based recursion that the kernel does not reduce, so the handful of
string operations the code needs are given structural implementations over
`List Char`. -/

/-- `os.path.basename`: the part of `s` after the last `'/'`. -/
def basenameL (s : List Char) : List Char :=
  (s.reverse.takeWhile (fun c => !(c == '/'))).reverse

/-- `os.path.basename` on strings. -/
def basename (s : String) : String :=
  String.mk (basenameL s.toList)

/-- ASCII lowercase of one character (filenames here are ASCII; models
`str.lower`). -/
def lowerChar (c : Char) : Char :=
  if 65 ≤ c.toNat && c.toNat ≤ 90 then Char.ofNat (c.toNat + 32) else c

/-- `str.lower` on strings. -/
def strLower (s : String) : String :=
  String.mk (s.toList.map lowerChar)

/-- `p` is a leading segment of `s` (on character lists). -/
def isPreOf : List Char → List Char → Bool
  | [], _ => true
  | _ :: _, [] => false
  | p :: ps, c :: cs => p == c && isPreOf ps cs

/-- Literal substring occurrence of `p` somewhere in `s`: used to model
`re.search` over an alternation of `re.escape`d literals (`runtool.py`). -/
def subOccurs (p : List Char) : List Char → Bool
  | [] => p.isEmpty
  | c :: cs => isPreOf p (c :: cs) || subOccurs p cs

/-- Substring occurrence where `'.'` in the pattern matches any character:
models `re.search` over the *unescaped* alternation built in `foo.py`. -/
def patPre : List Char → List Char → Bool
  | [], _ => true
  | _ :: _, [] => false
  | p :: ps, c :: cs => (p == '.' || p == c) && patPre ps cs

/-- Wildcard-dot substring occurrence (see `patPre`). -/
def patOccurs (p : List Char) : List Char → Bool
  | [] => p.isEmpty
  | c :: cs => patPre p (c :: cs) || patOccurs p cs

/-- `pat` occurs literally inside `s`. -/
def strHasSub (s pat : String) : Bool :=
  subOccurs pat.toList s.toList

/-- `pre` is a leading segment of `s`. -/
def strStarts (s pre : String) : Bool :=
  isPreOf pre.toList s.toList

/-- `suf` is a trailing segment of `s` (models `str.endswith`). -/
def strEnds (s suf : String) : Bool :=
  isPreOf suf.toList.reverse s.toList.reverse

/-- Python `a or b` on an optional string: `None` and `''` are falsy. -/
def pyOrStr (a : Option String) (b : String) : String :=
  match a with
  | none => b
  | some s => if s.isEmpty then b else s

/-- `os.path.join` for a relative second component. -/
def pathJoin (a b : String) : String :=
  a ++ "/" ++ b

/-! ## Stable descending sort by string length

`sorted(links, key=len, reverse=True)` in CPython is a *stable* sort,
descending by length.  A stable sort by a key is extensionally unique, so it
is embedded as a stable insertion sort: an element is inserted before the
first earlier-sorted element that is not strictly longer, keeping
equal-length elements in input order. -/

/-- Insert `x` before the first element of `l` whose length is `≤ x.length`. -/
def insertDesc (x : String) : List String → List String
  | [] => [x]
  | y :: ys => if y.length ≤ x.length then x :: y :: ys else y :: insertDesc x ys

/-- `sorted(links, key=len, reverse=True)`: stable, descending by length. -/
def pySortLenDesc : List String → List String
  | [] => []
  | x :: xs => insertDesc x (pySortLenDesc xs)

/-! ## AssetFilter: `ToolInstaller.__system_ignore_pattern__` (`runtool.py`)

The Python set literal is embedded as a list (only membership matters: the
compiled regex is an alternation of the escaped entries, and a search succeeds
iff some entry occurs in the text).  `difference_update(valid_tags)` is
embedded as a filter.  The `tool_installer.py` variant differs only in adding
the entry `'arm'` and lacking the `armv7l` machine branch. -/

/-- The universal block-set of `__system_ignore_pattern__` (`runtool.py`). -/
def universalIgnore : List String :=
  [".txt", "license", ".md", ".sha256", ".sha256sum", "checksums",
   "sha256sums", ".asc", ".sig", "src",
   ".deb", ".rpm",
   "darwin", "macos", "linux", "windows", "freebsd", "netbsd", "openbsd",
   "x86_64", "32-bit", "amd64", "x86", "i386", "386",
   "armv6hf", "aarch64", "arm64", "armhf", "armv5", "armv5l", "armv6",
   "armv6l", "armv7", "armv7l",
   "mips", "mips64", "mips64le", "mipsle", "ppc64", "ppc64le", "s390x",
   "i686", "powerpc", "i486",
   ".exe"]

/-- The `valid_tags` list built from `platform.system()`/`platform.machine()`
(`runtool.py` lines 274-289). -/
def validTags (sys mach : String) : List String :=
  (if sys == "darwin" then ["darwin", "apple", "macos"]
   else if sys == "linux" then ["linux", ".deb", ".rpm"]
   else if sys == "windows" then ["windows", ".exe"]
   else []) ++
  (if mach == "x86_64" then ["x86_64", "amd64", "x86"]
   else if mach == "armv7l" then ["armv7", "armv6"]
   else [])

/-- Block-set after `ignore_patterns.difference_update(valid_tags)`. -/
def systemIgnorePatterns (sys mach : String) : List String :=
  universalIgnore.filter (fun p => !((validTags sys mach).contains p))

/-- `ignore_pattern.search(f) is not None`: some remaining block entry occurs
literally in `f`. -/
def ignoreSearch (sys mach f : String) : Bool :=
  (systemIgnorePatterns sys mach).any (fun p => strHasSub f p)

/-- A candidate link is accepted by `__best_url__`s filter: no block entry
occurs in its lowercased basename. -/
def acceptLink (sys mach link : String) : Bool :=
  !(ignoreSearch sys mach (strLower (basename link)))

/-! ## AssetSelector: `ToolInstaller.__best_url__` (`runtool.py` 151-160) -/

/-- `__best_url__`: iterate over `sorted(links, key=len, reverse=True)`,
collect the links whose lowercased basename the ignore pattern does not hit,
and return the first (`next(iter(...), None)`). -/
def bestUrl (sys mach : String) (links : List String) : Option String :=
  ((pySortLenDesc links).filter (fun l => acceptLink sys mach l)).head?

/-! ## The `foo.py` variant: `GithubProject.get_download_target`

Its ignore pattern is built *without* `re.escape`, so a `'.'` in a pattern is
the regex wildcard; and after ranking it raises `SystemExit` when more than
two candidates survive. -/

/-- `GithubProject.__system_ignore_pattern__` (`foo.py` 84-106). -/
def fooIgnorePatterns (sys mach : String) : List String :=
  [".sha256", "checksums", "license", "sha256sums", ".src."] ++
  (if sys == "darwin" then
     ["windows", "linux", "openbsd", "freebsd", "netbsd", ".deb", ".rpm", ".exe"]
   else if sys == "linux" then
     ["windows", "darwin", "openbsd", "freebsd", "netbsd", ".exe"]
   else if sys == "windows" then
     ["linux", "darwin", "openbsd", "freebsd", "netbsd", ".deb", ".rpm"]
   else []) ++
  (if mach == "x86_64" then ["arm64", "aarch64", "32-bit", "powerpc"] else [])

/-- The unescaped pattern search of `foo.py` (dot is a wildcard). -/
def fooSearch (sys mach f : String) : Bool :=
  (fooIgnorePatterns sys mach).any (fun p => patOccurs p.toList f.toList)

/-- Error taxonomy of results for the stateful operations. -/
inductive Err where
  | executableNotFound
  | noMatchingAsset
  | fileExists
  | multipleMatches
  deriving DecidableEq, Repr

/-- `GithubProject.get_download_target` (`foo.py` 58-75): rank the relative
asset links, take the first survivor (prefixed with the host), but raise
(`SystemExit`) when more than two survive. -/
def getDownloadTarget (sys mach : String) (assets : List String) :
    Except Err (Option String) :=
  let results := (pySortLenDesc assets).filter
    (fun x => !(fooSearch sys mach (basename (strLower x))))
  if 2 < results.length then .error .multipleMatches
  else .ok (results.head?.map (fun r => "https://github.com" ++ r))

/-! ## Filesystem model -/

/-- Kind of a filesystem entry: regular file (with executable bit), directory,
or symbolic link storing its target path. -/
inductive EKind where
  | file (ex : Bool)
  | dir
  | symlink (target : String)
  deriving DecidableEq, Repr

/-- Filesystem state: an association list from absolute path to entry kind
(first match wins), a counter of `__download__` calls and a counter of
`__get_html__` calls. -/
structure FS where
  entries : List (String × EKind)
  fetchCount : Nat
  htmlCount : Nat
  deriving DecidableEq, Repr

/-- Look up the entry at path `p` in an entry list (first match wins). -/
def lookupE : List (String × EKind) → String → Option EKind
  | [], _ => none
  | e :: es, p => if e.1 == p then some e.2 else lookupE es p

/-- Look up the entry at path `p`. -/
def fsLookup (fs : FS) (p : String) : Option EKind :=
  lookupE fs.entries p

/-- `os.path.exists` (follows symlinks, one level): true for a file or
directory, and for a symlink whose stored target is a file or directory. -/
def fsExists (fs : FS) (p : String) : Bool :=
  match fsLookup fs p with
  | some (.symlink t) =>
    match fsLookup fs t with
    | some (.file _) => true
    | some .dir => true
    | _ => false
  | some _ => true
  | none => false

/-- `os.path.isfile` (follows symlinks, one level). -/
def fsIsFile (fs : FS) (p : String) : Bool :=
  match fsLookup fs p with
  | some (.file _) => true
  | some (.symlink t) =>
    match fsLookup fs t with
    | some (.file _) => true
    | _ => false
  | _ => false

/-- `os.path.islink`. -/
def fsIsLink (fs : FS) (p : String) : Bool :=
  match fsLookup fs p with
  | some (.symlink _) => true
  | _ => false

/-- `os.path.realpath`, one level: a symlink resolves to its stored target,
anything else to itself. -/
def realpathFS (fs : FS) (p : String) : String :=
  match fsLookup fs p with
  | some (.symlink t) => t
  | _ => p

/-- Set the executable bit on a file kind, other kinds unchanged. -/
def setExec : EKind → EKind
  | .file _ => .file true
  | k => k

/-- Entry-list part of `chmodFS`. -/
def chmodE (p : String) (es : List (String × EKind)) : List (String × EKind) :=
  es.map (fun e => if e.1 == p then (e.1, setExec e.2) else e)

/-- Set the executable bit of the entry at `p` (models
`__make_executable__` / `os.chmod(p, mode | S_IEXEC)`). -/
def chmodFS (fs : FS) (p : String) : FS :=
  { fs with entries := chmodE p fs.entries }

/-- `os.makedirs(d, exist_ok=True)`. -/
def mkdirs (fs : FS) (d : String) : FS :=
  if fsExists fs d then fs else { fs with entries := (d, .dir) :: fs.entries }

/-- `os.remove p`. -/
def fsRemove (fs : FS) (p : String) : FS :=
  { fs with entries := fs.entries.filter (fun e => !(e.1 == p)) }

/-- One `__download__` call (a network fetch of an asset). -/
def fetchFS (fs : FS) : FS :=
  { fs with fetchCount := fs.fetchCount + 1 }

/-- One `__get_html__` call (a network fetch of a release page). -/
def getHtmlFS (fs : FS) : FS :=
  { fs with htmlCount := fs.htmlCount + 1 }

/-! ## ExecutableLocator: `__files_in_dir__` / `__executable_from_dir__` -/

/-- `__files_in_dir__`: the regular files strictly below `dir`, in the
traversal order of the entry list (models `glob.glob(dir + '/**/*')`
filtered by `os.path.isfile`). -/
def filesInDirFS (fs : FS) (dir : String) : List String :=
  (fs.entries.filter (fun e =>
    (match e.2 with | .file _ => true | _ => false) &&
    strStarts e.1 (dir ++ "/"))).map (fun e => e.1)

/-- `__executable_from_dir__` (`runtool.py` 65-66) on an already-listed file
list: first the exact basename match; `or` falls through to the second
generator, whose condition `os.path.basename(file).startswith` is an
*uncalled bound method* — always truthy — so the fallback is simply the first
file of the list.  (Paths produced by `glob` are nonempty strings, so the
Python `or` on the first `next(...)` distinguishes exactly `None`.) -/
def locateExecutable (files : List String) (executableName : String) :
    Option String :=
  (files.find? (fun f => basename f == executableName)) <|> files.head?

/-- `__executable_from_dir__` against the filesystem model. -/
def executableFromDirFS (fs : FS) (dir executableName : String) : Option String :=
  locateExecutable (filesInDirFS fs dir) executableName

/-! ## InstallStore single-file mode: `executable_from_url` (83-90) -/

/-- The target path `bin_dir/rename-or-derived-name`. -/
def urlTarget (binDir url : String) (rename : Option String) : String :=
  pathJoin binDir (pyOrStr rename (basename url))

/-- `executable_from_url`: if the target does not exist, make `bin_dir`,
download the url (one fetch) and move the file there; always chmod the target
and return its path. -/
def executableFromUrlFS (binDir url : String) (rename : Option String)
    (fs : FS) : FS × String :=
  let target := urlTarget binDir url rename
  let fs1 :=
    if fsExists fs target then fs
    else
      let fs2 := mkdirs fs binDir
      let fs3 := fetchFS fs2
      { fs3 with entries := (target, .file false) :: fs3.entries }
  (chmodFS fs1 target, target)

/-! ## InstallStore package mode: `executable_from_package` (92-129) -/

/-- Result of a package-mode or release-mode operation. -/
inductive PkgResult where
  | ok (path : String)
  | err (e : Err)
  deriving DecidableEq, Repr

/-- `os.symlink(src, dst)`: fails with `FileExistsError` when any entry is
already at `dst`. -/
def osSymlink (fs : FS) (src dst : String) : FS × PkgResult :=
  if (fsLookup fs dst).isSome then (fs, .err .fileExists)
  else ({ fs with entries := (dst, .symlink src) :: fs.entries }, .ok dst)

/-- The symlink-placement block of `executable_from_package` (118-129):
if a regular file occupies the name, return the real executable; if a symlink
to the same resolved target, return the link; if a symlink elsewhere, remove
it; then `os.symlink` and return the link path. -/
def symlinkStep (binDir rename' executable : String) (fs : FS) : FS × PkgResult :=
  let symlinkPath := pathJoin binDir rename'
  if fsIsFile fs symlinkPath then
    if !(fsIsLink fs symlinkPath) then (fs, .ok executable)
    else if realpathFS fs symlinkPath == realpathFS fs executable then
      (fs, .ok symlinkPath)
    else
      let fs2 := fsRemove fs symlinkPath
      osSymlink fs2 executable symlinkPath
  else osSymlink fs executable symlinkPath

/-- `shutil.move(temp_extract_path, package_path)` after `os.makedirs
(package_dir)`: the extracted tree (the archive's relative file paths,
supplied by the `archive` oracle) appears under `packagePath`. -/
def movePackage (fs : FS) (pkgDir packagePath : String) (rels : List String) : FS :=
  let fs1 := mkdirs fs pkgDir
  { fs1 with entries :=
      (packagePath, .dir) ::
      rels.map (fun r => (pathJoin packagePath r, EKind.file false)) ++
      fs1.entries }

/-- `executable_from_package`: download+extract+move when the package path is
missing or the executable cannot be located in it; then locate (raising
`SystemExit` — `executableNotFound` — on failure), chmod, make `bin_dir`, and
run the symlink-placement block.  `archive url` is the oracle giving the
relative file paths contained in the archive at `url`. -/
def executableFromPackage (pkgDir binDir packageUrl executableName : String)
    (packageName rename : Option String) (archive : String → List String)
    (fs : FS) : FS × PkgResult :=
  let pkgName := pyOrStr packageName (basename packageUrl)
  let packagePath := pathJoin pkgDir pkgName
  let fs1 :=
    if !(fsExists fs packagePath) ||
       (executableFromDirFS fs packagePath executableName).isNone then
      movePackage (fetchFS fs) pkgDir packagePath (archive packageUrl)
    else fs
  match executableFromDirFS fs1 packagePath executableName with
  | none => (fs1, .err .executableNotFound)
  | some result =>
    let fs2 := chmodFS fs1 result
    let rename' := pyOrStr rename executableName
    let fs3 := mkdirs fs2 binDir
    symlinkStep binDir rename' result fs3

/-! ## Orchestrator: `git_install_release` (162-197)

The release page fetched by `__get_html__` and the links scraped from it are
modelled by the `links` parameter (the tag only selects the page URL). -/

/-- The archive-name test of line 190. -/
def isArchiveName (bn : String) : Bool :=
  strEnds bn ".zip" || strHasSub bn ".tar" || strEnds bn ".tgz" || strEnds bn ".tbz"

/-- `git_install_release`: return the bin path if it exists; else return an
executable located in the cached package directory; else fetch the release
page, pick the best asset (raising `SystemExit` — `noMatchingAsset` — when
none survives) and delegate to package mode or single-file mode. -/
def gitInstallRelease (sys mach binDir pkgDir user proj : String)
    (binary rename : Option String) (links : List String)
    (archive : String → List String) (fs : FS) : FS × PkgResult :=
  let binary' := pyOrStr binary proj
  let rename' := pyOrStr rename binary'
  let binInstallPath := pathJoin binDir rename'
  let packageName := user ++ "_" ++ proj
  if fsExists fs binInstallPath then (fs, .ok binInstallPath)
  else
    match executableFromDirFS fs (pathJoin pkgDir packageName) binary' with
    | some possible => (fs, .ok possible)
    | none =>
      let fs1 := getHtmlFS fs
      match bestUrl sys mach links with
      | none => (fs1, .err .noMatchingAsset)
      | some downloadUrl =>
        if isArchiveName (basename downloadUrl) then
          executableFromPackage pkgDir binDir downloadUrl binary'
            (some packageName) (some rename') archive fs1
        else
          let r := executableFromUrlFS binDir downloadUrl (some rename') fs1
          (r.1, .ok r.2)

/-! ## Lemmas about the stable sort and the selector -/

theorem mem_insertDesc {a x : String} {l : List String} :
    a ∈ insertDesc x l ↔ a = x ∨ a ∈ l := by
  induction l with
  | nil => simp [insertDesc]
  | cons y ys ih =>
    by_cases h : y.length ≤ x.length
    · simp only [insertDesc, if_pos h, List.mem_cons]
    · simp only [insertDesc, if_neg h, List.mem_cons, ih]
      tauto

theorem mem_pySortLenDesc {a : String} {l : List String} :
    a ∈ pySortLenDesc l ↔ a ∈ l := by
  induction l with
  | nil => simp [pySortLenDesc]
  | cons x xs ih => simp [pySortLenDesc, mem_insertDesc, ih]

theorem pairwise_insertDesc {x : String} {l : List String}
    (h : l.Pairwise (fun a b => b.length ≤ a.length)) :
    (insertDesc x l).Pairwise (fun a b => b.length ≤ a.length) := by
  induction l with
  | nil => simp [insertDesc]
  | cons y ys ih =>
    rcases List.pairwise_cons.mp h with ⟨hy, hys⟩
    by_cases hxy : y.length ≤ x.length
    · simp only [insertDesc, if_pos hxy]
      refine List.pairwise_cons.mpr ⟨?_, h⟩
      intro b hb
      rcases List.mem_cons.mp hb with rfl | hb
      · exact hxy
      · exact le_trans (hy b hb) hxy
    · simp only [insertDesc, if_neg hxy]
      refine List.pairwise_cons.mpr ⟨?_, ih hys⟩
      intro b hb
      rcases mem_insertDesc.mp hb with rfl | hb
      · exact le_of_not_le hxy
      · exact hy b hb

theorem pairwise_pySortLenDesc (l : List String) :
    (pySortLenDesc l).Pairwise (fun a b => b.length ≤ a.length) := by
  induction l with
  | nil => simp [pySortLenDesc]
  | cons x xs ih => exact pairwise_insertDesc ih

theorem filter_len_insertDesc (x : String) (l : List String) (n : Nat) :
    (insertDesc x l).filter (fun v => v.length == n) =
    if x.length == n then x :: l.filter (fun v => v.length == n)
    else l.filter (fun v => v.length == n) := by
  induction l with
  | nil =>
    cases hx : (x.length == n) <;> simp [insertDesc, List.filter, hx]
  | cons y ys ih =>
    by_cases hxy : y.length ≤ x.length
    · cases hx : (x.length == n) <;>
        simp [insertDesc, if_pos hxy, List.filter_cons, hx]
    · have hstep : insertDesc x (y :: ys) = y :: insertDesc x ys := by
        simp [insertDesc, if_neg hxy]
      cases hx : (x.length == n)
      · cases hy : (y.length == n) <;>
          simp [hstep, List.filter_cons, hy, ih, hx]
      · have hxn : x.length = n := by simpa using hx
        have hlt : x.length < y.length := Nat.lt_of_not_le hxy
        have hy : (y.length == n) = false := by
          simp only [beq_eq_false_iff_ne]
          omega
        simp [hstep, List.filter_cons, hy, ih, hx]

theorem filter_len_pySortLenDesc (l : List String) (n : Nat) :
    (pySortLenDesc l).filter (fun v => v.length == n) =
    l.filter (fun v => v.length == n) := by
  induction l with
  | nil => simp [pySortLenDesc]
  | cons x xs ih =>
    cases hx : (x.length == n) <;>
      simp [pySortLenDesc, filter_len_insertDesc, hx, List.filter_cons, ih]

theorem head?_filter_and {P Q : String → Bool} {l : List String} {u : String}
    (h : (l.filter P).head? = some u) (hq : Q u = true) :
    (l.filter (fun v => P v && Q v)).head? = some u := by
  induction l with
  | nil => simp [List.filter] at h
  | cons a t ih =>
    cases hp : P a
    · rw [List.filter_cons, if_neg (by simp [hp])] at h
      rw [List.filter_cons, if_neg (by simp [hp])]
      exact ih h
    · rw [List.filter_cons, if_pos (by simp [hp])] at h
      simp only [List.head?] at h
      injection h with h
      subst h
      rw [List.filter_cons, if_pos (by simp [hp, hq])]
      rfl

theorem filter_and_eq (P Q : String → Bool) (l : List String) :
    l.filter (fun v => P v && Q v) = (l.filter Q).filter P := by
  induction l with
  | nil => rfl
  | cons a t ih =>
    rw [List.filter_cons, List.filter_cons]
    cases hp : P a <;> cases hq : Q a <;>
      simp only [hp, hq, Bool.and_self, Bool.and_false, Bool.and_true,
        Bool.false_and, Bool.true_and, if_false, if_true, Bool.false_eq_true,
        ite_false, ite_true, ih, List.filter_cons]

theorem head?_filter_mem {P : String → Bool} {l : List String} {u : String}
    (h : (l.filter P).head? = some u) : u ∈ l ∧ P u = true := by
  have hmem : u ∈ l.filter P := by
    cases hl : l.filter P with
    | nil => simp [hl] at h
    | cons a t =>
      rw [hl] at h
      injection h with h
      subst h
      simp [hl]
  exact ⟨(List.mem_filter.mp hmem).1, (List.mem_filter.mp hmem).2⟩

theorem maxlen_of_head?_filter {P : String → Bool} {s : List String} {u : String}
    (hs : s.Pairwise (fun a b => b.length ≤ a.length))
    (h : (s.filter P).head? = some u) :
    ∀ v ∈ s, P v = true → v.length ≤ u.length := by
  induction s with
  | nil => simp [List.filter] at h
  | cons a t ih =>
    rcases List.pairwise_cons.mp hs with ⟨ha, ht⟩
    intro v hv hpv
    cases hp : P a
    · rw [List.filter_cons, if_neg (by simp [hp])] at h
      rcases List.mem_cons.mp hv with rfl | hv
      · rw [hp] at hpv; exact absurd hpv (by simp)
      · exact ih ht h v hv hpv
    · rw [List.filter_cons, if_pos (by simp [hp])] at h
      simp only [List.head?] at h
      injection h with h
      subst h
      rcases List.mem_cons.mp hv with rfl | hv
      · exact le_refl _
      · exact ha v hv

/-! ### Consequences for `bestUrl` -/

theorem bestUrl_some_mem {sys mach u : String} {links : List String}
    (h : bestUrl sys mach links = some u) :
    u ∈ links ∧ acceptLink sys mach u = true := by
  have := head?_filter_mem (l := pySortLenDesc links)
    (P := fun l => acceptLink sys mach l) h
  exact ⟨mem_pySortLenDesc.mp this.1, this.2⟩

theorem bestUrl_some_maxLen {sys mach u : String} {links : List String}
    (h : bestUrl sys mach links = some u) :
    ∀ v ∈ links, acceptLink sys mach v = true → v.length ≤ u.length := by
  intro v hv hacc
  exact maxlen_of_head?_filter (pairwise_pySortLenDesc links) h v
    (mem_pySortLenDesc.mpr hv) hacc

theorem bestUrl_some_earliest {sys mach u : String} {links : List String}
    (h : bestUrl sys mach links = some u) :
    (links.filter (fun v => acceptLink sys mach v && v.length == u.length)).head?
      = some u := by
  have h1 := head?_filter_and (Q := fun v => v.length == u.length) h
    (by simp)
  rw [filter_and_eq, filter_len_pySortLenDesc, ← filter_and_eq] at h1
  exact h1

theorem bestUrl_isSome_of_accepted {sys mach v : String} {links : List String}
    (hv : v ∈ links) (hacc : acceptLink sys mach v = true) :
    (bestUrl sys mach links).isSome := by
  have hmem : v ∈ (pySortLenDesc links).filter (fun l => acceptLink sys mach l) :=
    List.mem_filter.mpr ⟨mem_pySortLenDesc.mpr hv, hacc⟩
  unfold bestUrl
  cases hl : (pySortLenDesc links).filter (fun l => acceptLink sys mach l) with
  | nil => rw [hl] at hmem; simp at hmem
  | cons a t => simp

theorem bestUrl_none_of_rejected {sys mach : String} {links : List String}
    (h : ∀ l ∈ links, acceptLink sys mach l = false) :
    bestUrl sys mach links = none := by
  unfold bestUrl
  have : (pySortLenDesc links).filter (fun l => acceptLink sys mach l) = [] := by
    apply List.filter_eq_nil_iff.mpr
    intro a ha
    simp [h a (mem_pySortLenDesc.mp ha)]
  rw [this]
  rfl

/-! ## Lemmas about the filesystem model -/

theorem setExec_setExec (k : EKind) : setExec (setExec k) = setExec k := by
  cases k <;> rfl


theorem lookupE_chmodE (p q : String) (es : List (String × EKind)) :
    lookupE (chmodE p es) q =
    (lookupE es q).map (fun k => if q = p then setExec k else k) := by
  induction es with
  | nil => rfl
  | cons e es ih =>
    obtain ⟨a, k⟩ := e
    have h1 : (if ((a : String) == p) then ((a : String), setExec k) else (a, k)).1 = a := by
      split <;> rfl
    have h2 : (if ((a : String) == p) then ((a : String), setExec k) else (a, k)).2 =
        (if (a == p) then setExec k else k) := by
      split <;> rfl
    by_cases haq : a = q
    · subst haq
      simp only [chmodE, List.map_cons, lookupE, h1, h2, beq_self_eq_true, if_true]
      by_cases hap : a = p <;> simp [hap, beq_iff_eq]
    · have hf : (a == q) = false := by simpa using haq
      simp only [chmodE, List.map_cons, lookupE, h1, h2, hf, Bool.false_eq_true, if_false]
      simpa [chmodE] using ih

theorem fsLookup_chmodFS_ne {q p : String} (fs : FS) (h : ¬ q = p) :
    fsLookup (chmodFS fs p) q = fsLookup fs q := by
  unfold fsLookup chmodFS
  simp only [lookupE_chmodE, if_neg h]
  cases lookupE fs.entries q <;> rfl

theorem fsLookup_chmodFS_self (fs : FS) (p : String) :
    fsLookup (chmodFS fs p) p = (fsLookup fs p).map setExec := by
  unfold fsLookup chmodFS
  rw [lookupE_chmodE]
  cases lookupE fs.entries p <;> simp

theorem chmodE_idem (p : String) (es : List (String × EKind)) :
    chmodE p (chmodE p es) = chmodE p es := by
  unfold chmodE
  rw [List.map_map]
  apply List.map_congr_left
  intro e _
  by_cases hep : e.1 = p
  · simp [Function.comp, hep, setExec_setExec]
  · simp [Function.comp, hep]

theorem chmodFS_idem (fs : FS) (p : String) :
    chmodFS (chmodFS fs p) p = chmodFS fs p := by
  unfold chmodFS
  simp [chmodE_idem]

theorem chmodFS_fetchCount (fs : FS) (p : String) :
    (chmodFS fs p).fetchCount = fs.fetchCount := rfl

theorem fsExists_chmodFS_self (fs : FS) (p : String) :
    fsExists (chmodFS fs p) p = fsExists fs p := by
  unfold fsExists
  rw [fsLookup_chmodFS_self]
  cases hk : fsLookup fs p with
  | none => rfl
  | some k =>
    cases k with
    | file b => rfl
    | dir => rfl
    | symlink t =>
      simp only [Option.map_some', setExec]
      by_cases htp : t = p
      · subst htp
        rw [fsLookup_chmodFS_self]
        cases h2 : fsLookup fs t with
        | none => rfl
        | some k2 => cases k2 <;> rfl
      · rw [fsLookup_chmodFS_ne fs htp]

theorem fsLookup_mkdirs_ne {q d : String} (fs : FS) (h : ¬ q = d) :
    fsLookup (mkdirs fs d) q = fsLookup fs q := by
  unfold mkdirs
  by_cases he : fsExists fs d
  · simp [he]
  · simp only [he, if_false, Bool.false_eq_true]
    unfold fsLookup
    simp only [lookupE, show (d == q) = false by simpa using fun hh => h hh.symm]
    split <;> simp_all

theorem mkdirs_fetchCount (fs : FS) (d : String) :
    (mkdirs fs d).fetchCount = fs.fetchCount := by
  unfold mkdirs
  split <;> rfl

theorem lookupE_isSome_of_mem {es : List (String × EKind)} {f : String}
    (h : ∃ k, (f, k) ∈ es) : (lookupE es f).isSome := by
  induction es with
  | nil => simp at h
  | cons e es ih =>
    rcases h with ⟨k, hk⟩
    rcases List.mem_cons.mp hk with rfl | hk
    · simp [lookupE]
    · unfold lookupE
      split
      · rfl
      · exact ih ⟨k, hk⟩

theorem filesInDirFS_starts {fs : FS} {dir f : String}
    (h : f ∈ filesInDirFS fs dir) : strStarts f (dir ++ "/") = true := by
  unfold filesInDirFS at h
  rcases List.mem_map.mp h with ⟨e, he, rfl⟩
  have := List.mem_filter.mp he
  exact (Bool.and_eq_true _ _ |>.mp this.2).2

theorem filesInDirFS_lookup_isSome {fs : FS} {dir f : String}
    (h : f ∈ filesInDirFS fs dir) : (fsLookup fs f).isSome := by
  unfold filesInDirFS at h
  rcases List.mem_map.mp h with ⟨e, he, rfl⟩
  exact lookupE_isSome_of_mem ⟨e.2, by simpa using (List.mem_filter.mp he).1⟩

theorem locateExecutable_some_mem {files : List String} {n p : String}
    (h : locateExecutable files n = some p) : p ∈ files := by
  unfold locateExecutable at h
  cases hf : files.find? (fun f => basename f == n) with
  | some q =>
    rw [hf] at h
    injection h with h
    subst h
    exact List.mem_of_find?_eq_some hf
  | none =>
    rw [hf] at h
    cases files with
    | nil => simp at h
    | cons a t =>
      simp only [List.head?] at h
      injection h with h
      subst h
      simp

theorem locateExecutable_isSome (files : List String) (n : String)
    (h : files ≠ []) : (locateExecutable files n).isSome := by
  unfold locateExecutable
  cases hf : files.find? (fun f => basename f == n) with
  | some q => rfl
  | none =>
    cases files with
    | nil => exact absurd rfl h
    | cons a t => rfl

theorem pathJoin_ne_left (a b : String) : ¬ pathJoin a b = a := by
  intro h
  have hl : (pathJoin a b).length = a.length := by rw [h]
  unfold pathJoin at hl
  rw [String.length_append, String.length_append] at hl
  have h1 : ("/" : String).length = 1 := rfl
  omega

theorem ne_of_starts_of_not_starts {x y pre : String}
    (hx : strStarts x pre = true) (hy : strStarts y pre = false) : ¬ x = y := by
  intro h
  subst h
  rw [hx] at hy
  exact Bool.noConfusion hy

/-! ## Claim theorems -/

/-- C1 (code evaluated at the failing input): with no exact basename match in
the tree `["pkg/tool.bash", "pkg/bin/tool"]`, `__executable_from_dir__`
returns the shell-completion file `pkg/tool.bash` — its fallback condition
`os.path.basename(file).startswith` is an uncalled method object, hence
always truthy — even though `pkg/bin/tool`, which carries none of the
`.bash`/`.zsh`/`.fish`/`.1` suffixes, is present; the claim requires the
fallback to skip completion scripts and man pages. -/
theorem c1_fallback_returns_completion_script :
    locateExecutable ["pkg/tool.bash", "pkg/bin/tool"] "mytool" = some "pkg/tool.bash" ∧
    strEnds "pkg/tool.bash" ".bash" = true ∧
    strEnds "pkg/bin/tool" ".bash" = false ∧
    strEnds "pkg/bin/tool" ".zsh" = false ∧
    strEnds "pkg/bin/tool" ".fish" = false ∧
    strEnds "pkg/bin/tool" ".1" = false := by
  decide

/-- C2 (counterexample): on a linux/aarch64 host the machine's own
architecture token `aarch64` is *not* removed from the block-set (only
`x86_64` and `armv7l` machines get removals), so the asset
`tool-aarch64` — named with the host's own architecture — is rejected,
refuting "a host's own architecture token is never blocked" for every host
platform. -/
theorem c2_counterexample :
    acceptLink "linux" "aarch64" "tool-aarch64" = false ∧
    "aarch64" ∈ systemIgnorePatterns "linux" "aarch64" := by
  decide

/-- C2 (amended): a filename is accepted iff none of the remaining
block-substrings occurs in its lowercased basename; the removals apply only
to the recognized platforms — on linux/x86_64 the markers
`linux`/`.deb`/`.rpm`/`x86_64`/`amd64`/`x86` are removed — while an
unrecognized machine such as aarch64 keeps its own token in the block-set. -/
theorem c2_filter_characterization :
    (∀ sys mach link, acceptLink sys mach link = true ↔
      ∀ p ∈ systemIgnorePatterns sys mach,
        strHasSub (strLower (basename link)) p = false) ∧
    (∀ p ∈ (["linux", ".deb", ".rpm", "x86_64", "amd64", "x86"] : List String),
      p ∉ systemIgnorePatterns "linux" "x86_64") ∧
    "aarch64" ∈ systemIgnorePatterns "linux" "aarch64" := by
  refine ⟨?_, by decide, by decide⟩
  intro sys mach link
  unfold acceptLink ignoreSearch
  rw [Bool.not_eq_true']
  rw [List.any_eq_false]
  simp only [Bool.not_eq_true]

/-- C2 witness: the amended characterization instantiated on linux/x86_64:
the host's own tokens are absent from the block-set and the linux asset of
claim C7's candidate list is accepted. -/
theorem c2_filter_characterization_witness :
    "linux" ∉ systemIgnorePatterns "linux" "x86_64" ∧
    acceptLink "linux" "x86_64" "proj-linux-amd64.tar.gz" = true :=
  ⟨c2_filter_characterization.2.1 "linux" (by decide),
   (c2_filter_characterization.1 "linux" "x86_64" "proj-linux-amd64.tar.gz").mpr
     (by decide)⟩

/-- C4 (counterexample): `__best_url__` sorts by the length of the whole
URL string, not of the basename: with both candidates accepted, the URL
`aaaaaaaaaa/b` (long URL, one-character basename) beats `x/ccc`
(short URL, longer basename), contradicting "sorts candidates by basename
length descending". -/
theorem c4_counterexample :
    bestUrl "linux" "x86_64" ["aaaaaaaaaa/b", "x/ccc"] = some "aaaaaaaaaa/b" ∧
    acceptLink "linux" "x86_64" "aaaaaaaaaa/b" = true ∧
    acceptLink "linux" "x86_64" "x/ccc" = true ∧
    (basename "aaaaaaaaaa/b").length < (basename "x/ccc").length := by
  decide

/-- C4 (amended): the selector sorts candidates by full-URL-string length
descending and returns the first accepted candidate, so any returned
candidate has maximal URL length among the accepted ones; in particular,
given `["tool", "tool-v2-extended"]` with both acceptable it prefers
`tool-v2-extended`. -/
theorem c4_selector_prefers_longest :
    (∀ sys mach : String, ∀ links : List String, ∀ u : String,
      bestUrl sys mach links = some u →
      ∀ v ∈ links, acceptLink sys mach v = true → v.length ≤ u.length) ∧
    bestUrl "linux" "x86_64" ["tool", "tool-v2-extended"] = some "tool-v2-extended" := by
  refine ⟨?_, by decide⟩
  intro sys mach links u h
  exact bestUrl_some_maxLen h

/-- C4 witness: the maximal-length property instantiated on the concrete
two-candidate list of the claim. -/
theorem c4_selector_prefers_longest_witness :
    ("tool" : String).length ≤ ("tool-v2-extended" : String).length :=
  c4_selector_prefers_longest.1 "linux" "x86_64" ["tool", "tool-v2-extended"]
    "tool-v2-extended" (by decide) "tool" (by decide) (by decide)

/-- C7: on a linux/x86_64 host, among the four given candidates the selector
returns `proj-linux-amd64.tar.gz`: the darwin and windows assets and the
checksum file are rejected by the compiled block-set and the linux asset is
the accepted survivor of the descending-length iteration. -/
theorem c7_linux_asset_selected :
    bestUrl "linux" "x86_64"
      ["proj-linux-amd64.tar.gz", "proj-darwin-amd64.tar.gz",
       "proj-windows-amd64.exe", "proj.sha256"]
      = some "proj-linux-amd64.tar.gz" := by
  decide

/-- C10 (counterexample): the `foo.py` selector `get_download_target` *does*
fail on ambiguity: with three equally long accepted assets it raises
`SystemExit` ("Multiple matches") instead of returning the earliest. -/
theorem c10_counterexample :
    getDownloadTarget "linux" "x86_64"
      ["/u/p/releases/download/v1/tool-a", "/u/p/releases/download/v1/tool-b",
       "/u/p/releases/download/v1/tool-c"]
      = .error .multipleMatches := by
  rfl

/-- C10 (amended): the primary selector `__best_url__` is deterministic and
total: a returned candidate is an accepted member of the input, and among
the accepted candidates sharing its length it is the earliest in input
order (the stable descending sort preserves input order on equal lengths);
the historical `foo.py` variant, by contrast, raises on more than two
survivors. -/
theorem c10_selector_stable_earliest {sys mach u : String} {links : List String}
    (h : bestUrl sys mach links = some u) :
    u ∈ links ∧ acceptLink sys mach u = true ∧
    (links.filter (fun v => acceptLink sys mach v && v.length == u.length)).head?
      = some u :=
  ⟨(bestUrl_some_mem h).1, (bestUrl_some_mem h).2, bestUrl_some_earliest h⟩

/-- C10 witness: two equally long accepted candidates; the selector returns
the first of the input list, which is also the head of the equal-length
accepted sublist. -/
theorem c10_selector_stable_earliest_witness :
    "tool-abc" ∈ ["tool-abc", "tool-xyz"] ∧
    acceptLink "linux" "x86_64" "tool-abc" = true ∧
    ((["tool-abc", "tool-xyz"] : List String).filter
      (fun v => acceptLink "linux" "x86_64" v && v.length == ("tool-abc" : String).length)).head?
      = some "tool-abc" :=
  c10_selector_stable_earliest (by decide)

/-- C3: `executable_from_url` is idempotent: when the target
`bin_dir/rename-or-derived-name` already exists no fetch happens and the
same path is returned; when it does not, exactly one fetch happens; and a
second call with the same arguments returns the very same state and path —
so two calls perform exactly one network fetch. -/
theorem c3_executable_from_url_idempotent (binDir url : String)
    (rename : Option String) (fs : FS) :
    (fsExists fs (urlTarget binDir url rename) = true →
      (executableFromUrlFS binDir url rename fs).1.fetchCount = fs.fetchCount) ∧
    (fsExists fs (urlTarget binDir url rename) = false →
      (executableFromUrlFS binDir url rename fs).1.fetchCount = fs.fetchCount + 1) ∧
    (executableFromUrlFS binDir url rename fs).2 = urlTarget binDir url rename ∧
    executableFromUrlFS binDir url rename
        (executableFromUrlFS binDir url rename fs).1
      = executableFromUrlFS binDir url rename fs := by
  have hpos : ∀ g : FS, fsExists g (urlTarget binDir url rename) = true →
      executableFromUrlFS binDir url rename g
        = (chmodFS g (urlTarget binDir url rename), urlTarget binDir url rename) := by
    intro g hg
    simp only [executableFromUrlFS, hg, if_true]
  by_cases h : fsExists fs (urlTarget binDir url rename) = true
  · have hrun := hpos fs h
    refine ⟨fun _ => ?_, fun hc => ?_, ?_, ?_⟩
    · rw [hrun]
      exact chmodFS_fetchCount fs _
    · rw [h] at hc
      exact Bool.noConfusion hc
    · rw [hrun]
    · have h2 : fsExists (chmodFS fs (urlTarget binDir url rename))
          (urlTarget binDir url rename) = true := by
        rw [fsExists_chmodFS_self]
        exact h
      rw [hrun, hpos _ h2, chmodFS_idem]
  · have hneg : fsExists fs (urlTarget binDir url rename) = false :=
      Bool.not_eq_true _ |>.mp h
    have hrun : executableFromUrlFS binDir url rename fs
        = (chmodFS
            ⟨(urlTarget binDir url rename, EKind.file false) ::
                (fetchFS (mkdirs fs binDir)).entries,
              (fetchFS (mkdirs fs binDir)).fetchCount,
              (fetchFS (mkdirs fs binDir)).htmlCount⟩
            (urlTarget binDir url rename),
           urlTarget binDir url rename) := by
      simp only [executableFromUrlFS, hneg, if_false, Bool.false_eq_true]
    refine ⟨fun hc => ?_, fun _ => ?_, ?_, ?_⟩
    · rw [hneg] at hc
      exact Bool.noConfusion hc
    · rw [hrun, chmodFS_fetchCount]
      show (fetchFS (mkdirs fs binDir)).fetchCount = fs.fetchCount + 1
      unfold fetchFS
      rw [mkdirs_fetchCount]
    · rw [hrun]
    · have h2 : fsExists
          (chmodFS
            ⟨(urlTarget binDir url rename, EKind.file false) ::
                (fetchFS (mkdirs fs binDir)).entries,
              (fetchFS (mkdirs fs binDir)).fetchCount,
              (fetchFS (mkdirs fs binDir)).htmlCount⟩
            (urlTarget binDir url rename))
          (urlTarget binDir url rename) = true := by
        rw [fsExists_chmodFS_self]
        unfold fsExists fsLookup
        simp [lookupE]
      rw [hrun, hpos _ h2, chmodFS_idem]

/-- C3 witness: with the target already present no fetch happens; with an
empty store the first call fetches once and a second call changes nothing. -/
theorem c3_executable_from_url_idempotent_witness :
    (executableFromUrlFS "/bin" "http://h/tool" none
      ⟨[("/bin/tool", EKind.file false)], 0, 0⟩).1.fetchCount = 0 ∧
    (executableFromUrlFS "/bin" "http://h/tool" none ⟨[], 0, 0⟩).1.fetchCount = 0 + 1 ∧
    executableFromUrlFS "/bin" "http://h/tool" none
        (executableFromUrlFS "/bin" "http://h/tool" none (⟨[], 0, 0⟩ : FS)).1
      = executableFromUrlFS "/bin" "http://h/tool" none ⟨[], 0, 0⟩ :=
  ⟨(c3_executable_from_url_idempotent "/bin" "http://h/tool" none
      ⟨[("/bin/tool", EKind.file false)], 0, 0⟩).1 (by decide),
   (c3_executable_from_url_idempotent "/bin" "http://h/tool" none ⟨[], 0, 0⟩).2.1
      (by decide),
   (c3_executable_from_url_idempotent "/bin" "http://h/tool" none ⟨[], 0, 0⟩).2.2.2⟩

/-- C6: in package mode, when `bin_dir/<name>` is already occupied by a
regular (non-symlink) file, the install returns the real cached executable
path inside the package directory, raises nothing, performs no fetch, and
leaves the occupying file exactly as it was.  (The hypotheses say the
package is cached with its executable locatable — the situation the claim
describes — and that the bin path does not lie inside the package tree.) -/
theorem c6_regular_file_not_clobbered
    (pkgDir binDir packageUrl executableName : String)
    (packageName rename : Option String) (archive : String → List String)
    (fs : FS) (b : Bool) (exe : String)
    (hpkg : fsExists fs (pathJoin pkgDir (pyOrStr packageName (basename packageUrl))) = true)
    (hloc : executableFromDirFS fs
      (pathJoin pkgDir (pyOrStr packageName (basename packageUrl))) executableName
      = some exe)
    (hbin : fsLookup fs (pathJoin binDir (pyOrStr rename executableName))
      = some (.file b))
    (hsep : strStarts (pathJoin binDir (pyOrStr rename executableName))
      (pathJoin pkgDir (pyOrStr packageName (basename packageUrl)) ++ "/") = false) :
    (executableFromPackage pkgDir binDir packageUrl executableName
      packageName rename archive fs).2 = .ok exe ∧
    strStarts exe
      (pathJoin pkgDir (pyOrStr packageName (basename packageUrl)) ++ "/") = true ∧
    fsLookup (executableFromPackage pkgDir binDir packageUrl executableName
        packageName rename archive fs).1
      (pathJoin binDir (pyOrStr rename executableName)) = some (.file b) ∧
    (executableFromPackage pkgDir binDir packageUrl executableName
      packageName rename archive fs).1.fetchCount = fs.fetchCount := by
  have hloc' : locateExecutable
      (filesInDirFS fs (pathJoin pkgDir (pyOrStr packageName (basename packageUrl))))
      executableName = some exe := hloc
  have hmem := locateExecutable_some_mem hloc'
  have hstarts := filesInDirFS_starts hmem
  have hne1 : ¬ (pathJoin binDir (pyOrStr rename executableName)) = exe :=
    fun hh => (ne_of_starts_of_not_starts hstarts hsep) hh.symm
  have hne2 : ¬ (pathJoin binDir (pyOrStr rename executableName)) = binDir :=
    pathJoin_ne_left binDir _
  have hrun : executableFromPackage pkgDir binDir packageUrl executableName
      packageName rename archive fs
      = symlinkStep binDir (pyOrStr rename executableName) exe
          (mkdirs (chmodFS fs exe) binDir) := by
    simp only [executableFromPackage, hpkg, hloc, Bool.not_true, Option.isNone_some,
      Bool.or_false, Bool.false_or, Bool.or_self, if_false, Bool.false_eq_true]
  have hlook3 : fsLookup (mkdirs (chmodFS fs exe) binDir)
      (pathJoin binDir (pyOrStr rename executableName)) = some (.file b) := by
    rw [fsLookup_mkdirs_ne _ hne2, fsLookup_chmodFS_ne _ hne1]
    exact hbin
  have hfile : fsIsFile (mkdirs (chmodFS fs exe) binDir)
      (pathJoin binDir (pyOrStr rename executableName)) = true := by
    unfold fsIsFile
    rw [hlook3]
  have hlink : fsIsLink (mkdirs (chmodFS fs exe) binDir)
      (pathJoin binDir (pyOrStr rename executableName)) = false := by
    unfold fsIsLink
    rw [hlook3]
  have hsym : symlinkStep binDir (pyOrStr rename executableName) exe
      (mkdirs (chmodFS fs exe) binDir)
      = (mkdirs (chmodFS fs exe) binDir, .ok exe) := by
    simp only [symlinkStep, hfile, hlink, if_true, Bool.not_false, if_false]
  rw [hrun, hsym]
  refine ⟨rfl, hstarts, hlook3, ?_⟩
  rw [mkdirs_fetchCount, chmodFS_fetchCount]

/-- C6 witness: a cached package `/pkg/u_p` containing `tool`, with a
regular file already at `/bin/tool`: the install returns the cached
executable and the bin entry is unchanged. -/
theorem c6_regular_file_not_clobbered_witness :
    (executableFromPackage "/pkg" "/bin" "http://h/u_p.tar.gz" "tool"
      (some "u_p") none (fun _ => [])
      ⟨[("/pkg/u_p", EKind.dir), ("/pkg/u_p/tool", EKind.file false),
        ("/bin/tool", EKind.file false)], 0, 0⟩).2 = .ok "/pkg/u_p/tool" ∧
    strStarts "/pkg/u_p/tool"
      (pathJoin "/pkg" (pyOrStr (some "u_p") (basename "http://h/u_p.tar.gz")) ++ "/")
      = true ∧
    fsLookup (executableFromPackage "/pkg" "/bin" "http://h/u_p.tar.gz" "tool"
      (some "u_p") none (fun _ => [])
      ⟨[("/pkg/u_p", EKind.dir), ("/pkg/u_p/tool", EKind.file false),
        ("/bin/tool", EKind.file false)], 0, 0⟩).1
      (pathJoin "/bin" (pyOrStr none "tool")) = some (.file false) ∧
    (executableFromPackage "/pkg" "/bin" "http://h/u_p.tar.gz" "tool"
      (some "u_p") none (fun _ => [])
      ⟨[("/pkg/u_p", EKind.dir), ("/pkg/u_p/tool", EKind.file false),
        ("/bin/tool", EKind.file false)], 0, 0⟩).1.fetchCount = 0 :=
  c6_regular_file_not_clobbered "/pkg" "/bin" "http://h/u_p.tar.gz" "tool"
    (some "u_p") none (fun _ => []) _ false "/pkg/u_p/tool"
    (by decide) (by decide) (by decide) (by decide)

/-- C8: in package mode, when `bin_dir/<name>` is a dangling symlink (its
stored target does not exist), the `os.path.isfile` guard is false, so the
code reaches `os.symlink` over the existing link and fails with
`FileExistsError`; the stale link is not removed or replaced. -/
theorem c8_dangling_symlink_raises
    (pkgDir binDir packageUrl executableName : String)
    (packageName rename : Option String) (archive : String → List String)
    (fs : FS) (t : String) (exe : String)
    (hpkg : fsExists fs (pathJoin pkgDir (pyOrStr packageName (basename packageUrl))) = true)
    (hloc : executableFromDirFS fs
      (pathJoin pkgDir (pyOrStr packageName (basename packageUrl))) executableName
      = some exe)
    (hbin : fsLookup fs (pathJoin binDir (pyOrStr rename executableName))
      = some (.symlink t))
    (hdang : fsLookup fs t = none)
    (hsep : strStarts (pathJoin binDir (pyOrStr rename executableName))
      (pathJoin pkgDir (pyOrStr packageName (basename packageUrl)) ++ "/") = false)
    (htb : ¬ t = binDir) :
    (executableFromPackage pkgDir binDir packageUrl executableName
      packageName rename archive fs).2 = .err .fileExists ∧
    fsLookup (executableFromPackage pkgDir binDir packageUrl executableName
        packageName rename archive fs).1
      (pathJoin binDir (pyOrStr rename executableName)) = some (.symlink t) := by
  have hloc' : locateExecutable
      (filesInDirFS fs (pathJoin pkgDir (pyOrStr packageName (basename packageUrl))))
      executableName = some exe := hloc
  have hmem := locateExecutable_some_mem hloc'
  have hstarts := filesInDirFS_starts hmem
  have hexe := filesInDirFS_lookup_isSome hmem
  have hne1 : ¬ (pathJoin binDir (pyOrStr rename executableName)) = exe :=
    fun hh => (ne_of_starts_of_not_starts hstarts hsep) hh.symm
  have hne2 : ¬ (pathJoin binDir (pyOrStr rename executableName)) = binDir :=
    pathJoin_ne_left binDir _
  have hnet : ¬ t = exe := by
    intro hh
    rw [hh] at hdang
    rw [hdang] at hexe
    exact Bool.noConfusion hexe
  have hrun : executableFromPackage pkgDir binDir packageUrl executableName
      packageName rename archive fs
      = symlinkStep binDir (pyOrStr rename executableName) exe
          (mkdirs (chmodFS fs exe) binDir) := by
    simp only [executableFromPackage, hpkg, hloc, Bool.not_true, Option.isNone_some,
      Bool.or_false, Bool.false_or, Bool.or_self, if_false, Bool.false_eq_true]
  have hlook3 : fsLookup (mkdirs (chmodFS fs exe) binDir)
      (pathJoin binDir (pyOrStr rename executableName)) = some (.symlink t) := by
    rw [fsLookup_mkdirs_ne _ hne2, fsLookup_chmodFS_ne _ hne1]
    exact hbin
  have ht3 : fsLookup (mkdirs (chmodFS fs exe) binDir) t = none := by
    rw [fsLookup_mkdirs_ne _ htb, fsLookup_chmodFS_ne _ hnet]
    exact hdang
  have hfile : fsIsFile (mkdirs (chmodFS fs exe) binDir)
      (pathJoin binDir (pyOrStr rename executableName)) = false := by
    unfold fsIsFile
    rw [hlook3]
    simp only [ht3]
  have hsym : symlinkStep binDir (pyOrStr rename executableName) exe
      (mkdirs (chmodFS fs exe) binDir)
      = (mkdirs (chmodFS fs exe) binDir, .err .fileExists) := by
    simp only [symlinkStep, hfile, if_false, Bool.false_eq_true, osSymlink, hlook3,
      Option.isSome_some, if_true]
  rw [hrun, hsym]
  exact ⟨rfl, hlook3⟩

/-- C8 witness: a cached package `/pkg/u_p` containing `tool`, with a
dangling symlink `/bin/tool -> /gone`: the install fails with
`FileExistsError` and the stale link survives. -/
theorem c8_dangling_symlink_raises_witness :
    (executableFromPackage "/pkg" "/bin" "http://h/u_p.tar.gz" "tool"
      (some "u_p") none (fun _ => [])
      ⟨[("/pkg/u_p", EKind.dir), ("/pkg/u_p/tool", EKind.file false),
        ("/bin/tool", EKind.symlink "/gone")], 0, 0⟩).2 = .err .fileExists ∧
    fsLookup (executableFromPackage "/pkg" "/bin" "http://h/u_p.tar.gz" "tool"
      (some "u_p") none (fun _ => [])
      ⟨[("/pkg/u_p", EKind.dir), ("/pkg/u_p/tool", EKind.file false),
        ("/bin/tool", EKind.symlink "/gone")], 0, 0⟩).1
      (pathJoin "/bin" (pyOrStr none "tool")) = some (.symlink "/gone") :=
  c8_dangling_symlink_raises "/pkg" "/bin" "http://h/u_p.tar.gz" "tool"
    (some "u_p") none (fun _ => []) _ "/gone" "/pkg/u_p/tool"
    (by decide) (by decide) (by decide) (by decide) (by decide) (by decide)

/-- C9: when no entry exists at `bin_dir/<rename>` but the package directory
`package_dir/<user>_<project>` already contains at least one regular file,
`git_install_release` returns a path inside that package directory with the
whole state unchanged — no network access (neither page fetch nor download)
and no entry in `bin_dir` created or modified (in particular, no symlink). -/
theorem c9_cached_package_no_side_effects
    (sys mach binDir pkgDir user proj : String) (binary rename : Option String)
    (links : List String) (archive : String → List String) (fs : FS)
    (hbin : fsLookup fs (pathJoin binDir (pyOrStr rename (pyOrStr binary proj)))
      = none)
    (hne : filesInDirFS fs (pathJoin pkgDir (user ++ "_" ++ proj)) ≠ []) :
    (gitInstallRelease sys mach binDir pkgDir user proj binary rename links
      archive fs).1 = fs ∧
    ∃ p, (gitInstallRelease sys mach binDir pkgDir user proj binary rename links
        archive fs).2 = .ok p ∧
      strStarts p (pathJoin pkgDir (user ++ "_" ++ proj) ++ "/") = true := by
  have hex : fsExists fs (pathJoin binDir (pyOrStr rename (pyOrStr binary proj)))
      = false := by
    unfold fsExists
    rw [hbin]
  have hsome := locateExecutable_isSome
    (filesInDirFS fs (pathJoin pkgDir (user ++ "_" ++ proj)))
    (pyOrStr binary proj) hne
  obtain ⟨p, hp⟩ := Option.isSome_iff_exists.mp hsome
  have hp' : executableFromDirFS fs (pathJoin pkgDir (user ++ "_" ++ proj))
      (pyOrStr binary proj) = some p := hp
  have hrun : gitInstallRelease sys mach binDir pkgDir user proj binary rename
      links archive fs = (fs, .ok p) := by
    simp only [gitInstallRelease, hex, if_false, Bool.false_eq_true, hp']
  rw [hrun]
  exact ⟨rfl, p, rfl, filesInDirFS_starts (locateExecutable_some_mem hp)⟩

/-- C9 witness: a package cache holding `/pkg/u_p/tool` and an empty bin
path: the orchestrator returns a path under `/pkg/u_p/` and the state is
untouched. -/
theorem c9_cached_package_no_side_effects_witness :
    (gitInstallRelease "linux" "x86_64" "/bin" "/pkg" "u" "p" none none []
      (fun _ => []) ⟨[("/pkg/u_p/tool", EKind.file false)], 0, 0⟩).1
      = ⟨[("/pkg/u_p/tool", EKind.file false)], 0, 0⟩ ∧
    ∃ p, (gitInstallRelease "linux" "x86_64" "/bin" "/pkg" "u" "p" none none []
        (fun _ => []) ⟨[("/pkg/u_p/tool", EKind.file false)], 0, 0⟩).2 = .ok p ∧
      strStarts p (pathJoin "/pkg" ("u" ++ "_" ++ "p") ++ "/") = true :=
  c9_cached_package_no_side_effects "linux" "x86_64" "/bin" "/pkg" "u" "p"
    none none [] (fun _ => []) _ (by decide) (by decide)

/-- C5: when every candidate link is rejected (or there are none), the
selector returns no match, and in that position `git_install_release`
raises `NoMatchingAsset` having written nothing: the entries and the
download counter of the state are exactly those before the call (only the
release page was fetched). -/
theorem c5_no_match_fails_closed
    (sys mach binDir pkgDir user proj : String) (binary rename : Option String)
    (links : List String) (archive : String → List String) (fs : FS)
    (hbin : fsExists fs (pathJoin binDir (pyOrStr rename (pyOrStr binary proj)))
      = false)
    (hloc : executableFromDirFS fs (pathJoin pkgDir (user ++ "_" ++ proj))
      (pyOrStr binary proj) = none)
    (hrej : ∀ l ∈ links, acceptLink sys mach l = false) :
    bestUrl sys mach links = none ∧
    (gitInstallRelease sys mach binDir pkgDir user proj binary rename links
      archive fs).2 = .err .noMatchingAsset ∧
    (gitInstallRelease sys mach binDir pkgDir user proj binary rename links
      archive fs).1.entries = fs.entries ∧
    (gitInstallRelease sys mach binDir pkgDir user proj binary rename links
      archive fs).1.fetchCount = fs.fetchCount := by
  have hnone := bestUrl_none_of_rejected hrej
  have hrun : gitInstallRelease sys mach binDir pkgDir user proj binary rename
      links archive fs = (getHtmlFS fs, .err .noMatchingAsset) := by
    simp only [gitInstallRelease, hbin, if_false, Bool.false_eq_true, hloc, hnone]
  rw [hrun]
  exact ⟨hnone, rfl, rfl, rfl⟩

/-- C5 witness: a single checksum-file candidate on linux/x86_64 is
rejected, the selector returns none and the orchestrator fails closed on an
empty store. -/
theorem c5_no_match_fails_closed_witness :
    bestUrl "linux" "x86_64" ["a.sha256"] = none ∧
    (gitInstallRelease "linux" "x86_64" "/bin" "/pkg" "u" "p" none none
      ["a.sha256"] (fun _ => []) ⟨[], 0, 0⟩).2 = .err .noMatchingAsset ∧
    (gitInstallRelease "linux" "x86_64" "/bin" "/pkg" "u" "p" none none
      ["a.sha256"] (fun _ => []) ⟨[], 0, 0⟩).1.entries = ([] : List (String × EKind)) ∧
    (gitInstallRelease "linux" "x86_64" "/bin" "/pkg" "u" "p" none none
      ["a.sha256"] (fun _ => []) ⟨[], 0, 0⟩).1.fetchCount = 0 :=
  c5_no_match_fails_closed "linux" "x86_64" "/bin" "/pkg" "u" "p" none none
    ["a.sha256"] (fun _ => []) ⟨[], 0, 0⟩ (by decide) (by decide) (by decide)
